import Mathlib

/-!
# Verification of the LSP server implementation (`src/lsp/server_impl.go`)

This file is a shallow embedding of the server side of the LSP (Live Sequenced
Protocol) implementation in `src/lsp/server_impl.go`, together with proofs of
the specification's claims about it.

Modelling conventions:

* Go maps (`map[int]*Message`, `map[int]*client`, `map[int]bool`) are embedded
  as association lists (`List (key × value)` resp. `List key` for sets).
* `container/list` doubly-linked lists become `List`.
* Go `int` connection identifiers become `Int` (the `Read` sentinel is `-1`);
  sequence numbers become `Nat` (they are only ever incremented from `0`, so
  `int32` wraparound is immaterial to every claim treated here).
* Channels, UDP sockets, timers and goroutine scheduling are not data; the
  per-connection event loop `handleEvents` and the coordinator loop
  `handleConn` are embedded as step functions over explicit event values, one
  event per loop iteration, with the messages written to the peer (resp. to a
  channel) returned as an explicit output list.
* Methods of the `client` type that are referenced by `server_impl.go` but
  whose bodies are not among the sources (`processReceivedMessage`,
  `processAckMessage`, `processPendingSendMessages`,
  `processPendingReSendMessages`, `resendAckMessages`, `checkCloseComplete`,
  `isConnClosed`) carry a doc comment starting `Modelled from the spec:` and
  follow the specification's description of the corresponding operation.
-/

/-- The three message kinds of the protocol (`MsgConnect`, `MsgData`, `MsgAck`). -/
inductive MsgType
  | connect
  | data
  | ack
  deriving DecidableEq, Repr

/-- A protocol message: kind, connection ID, sequence number, payload length and
payload bytes.  Modelled from the spec: the `Message` envelope of the external
codec package (`NewAck`, `NewData`, `UnMarshalMessage` are not among the sources). -/
structure Message where
  type : MsgType
  connID : Int
  seqNum : Nat
  size : Nat
  payload : List Nat
  deriving DecidableEq, Repr

/-- `NewAck(connID, seqNum)`: an acknowledgment message. -/
def NewAck (connID : Int) (seqNum : Nat) : Message :=
  { type := MsgType.ack, connID := connID, seqNum := seqNum, size := 0, payload := [] }

/-- `NewData(connID, seqNum, size, payload)`: a data message. -/
def NewData (connID : Int) (seqNum : Nat) (size : Nat) (payload : List Nat) : Message :=
  { type := MsgType.data, connID := connID, seqNum := seqNum, size := size, payload := payload }

/-- Lookup in an association list (embeds Go map indexing `m[k]`). -/
def alistLookup {α β : Type} [DecidableEq α] (k : α) : List (α × β) → Option β
  | [] => none
  | p :: rest => if p.1 = k then some p.2 else alistLookup k rest

/-- Remove every binding of key `k` (embeds Go `delete(m, k)`). -/
def alistErase {α β : Type} [DecidableEq α] (k : α) : List (α × β) → List (α × β)
  | [] => []
  | p :: rest => if p.1 = k then alistErase k rest else p :: alistErase k rest

/-- Replace the value bound to key `k` (embeds Go map assignment to an existing key). -/
def alistUpdate {α β : Type} [DecidableEq α] (k : α) (v : β) : List (α × β) → List (α × β)
  | [] => []
  | p :: rest => if p.1 = k then (k, v) :: alistUpdate k v rest else p :: alistUpdate k v rest

/-- The per-connection state: the fields of the `client` struct as initialised by
`handleConn` (`server_impl.go:117-140`).  Channels, the peer address, the shared
socket and the shared ticker are not data and are omitted; the two `int32`
atomics `isClosed` and `isLost` become `Bool`. -/
structure ClientState where
  connID : Int
  isClosed : Bool
  isLost : Bool
  seqNum : Nat
  pendingReceivedMessages : List (Nat × Message)
  pendingSendMessages : List Message
  pendingReceivedMessageQueue : List Message
  receivedMessageSeqNum : Nat
  pendingReSendMessages : List (Nat × Message)
  lastProcessedMessageSeqNum : Nat
  slideWindow : List Message
  lastAckSeqNum : Nat
  unAckedMessages : List Nat
  epochLimit : Nat
  windowSize : Nat
  epochFiredCount : Nat
  deriving DecidableEq, Repr

/-- The `client` struct literal of `handleConn` (`server_impl.go:117-140`):
fresh buffers, `seqNum = 0`, `lastProcessedMessageSeqNum = 1`,
`lastAckSeqNum = 0`, `epochFiredCount = 0`, not closed, not lost. -/
def initClient (connID : Int) (epochLimit windowSize : Nat) : ClientState :=
  { connID := connID
    isClosed := false
    isLost := false
    seqNum := 0
    pendingReceivedMessages := []
    pendingSendMessages := []
    pendingReceivedMessageQueue := []
    receivedMessageSeqNum := 0
    pendingReSendMessages := []
    lastProcessedMessageSeqNum := 1
    slideWindow := []
    lastAckSeqNum := 0
    unAckedMessages := []
    epochLimit := epochLimit
    windowSize := windowSize
    epochFiredCount := 0 }

/-- The contiguous-delivery drain loop: while the next expected sequence number
`last` is present in the pending map, move its message to the back of the ready
queue, remove it from the map and advance `last`.  `fuel` bounds the recursion;
any `fuel ≥ pend.length` drains completely, since each round removes at least
one entry. -/
def drainGo : Nat → List (Nat × Message) → Nat → List Message →
    List (Nat × Message) × Nat × List Message
  | 0, pend, last, queue => (pend, last, queue)
  | fuel + 1, pend, last, queue =>
    match alistLookup last pend with
    | none => (pend, last, queue)
    | some m => drainGo fuel (alistErase last pend) (last + 1) (queue ++ [m])

/-- Modelled from the spec: the client method `processReceivedMessage` invoked by
`handleEvents` (`server_impl.go:191`) is declared in client code absent from the
sources.  Spec §4.1 `onDataReceived(msg)`: a message whose sequence number is
below the next-expected counter `lastProcessedMessageSeqNum` is a duplicate of an
already-delivered message and is dropped (its acknowledgment was already sent by
`handleConn`); otherwise it is stored in `pendingReceivedMessages`, and then every
contiguous run starting at `lastProcessedMessageSeqNum` is moved in order into
`pendingReceivedMessageQueue`, advancing the counter. -/
def processReceivedMessage (c : ClientState) (m : Message) : ClientState :=
  if m.seqNum < c.lastProcessedMessageSeqNum then c
  else
    let pend := (m.seqNum, m) :: alistErase m.seqNum c.pendingReceivedMessages
    let r := drainGo pend.length pend c.lastProcessedMessageSeqNum c.pendingReceivedMessageQueue
    { c with pendingReceivedMessages := r.1
             lastProcessedMessageSeqNum := r.2.1
             pendingReceivedMessageQueue := r.2.2 }

/-- `prepareReadMessage` (`server_impl.go:257-270`), non-close path: repeatedly
pop the front of `pendingReceivedMessageQueue` and push it onto the server's
`readChan` (modelled as a list read FIFO by `Read`). -/
def prepareReadMessage (c : ClientState) (readChan : List Message) :
    ClientState × List Message :=
  ({ c with pendingReceivedMessageQueue := [] }, readChan ++ c.pendingReceivedMessageQueue)

/-- Events of the receive/deliver side of one connection: arrival of a data
message from the peer, or a drain of the ready queue into the server's read
channel. -/
inductive RecvEvent
  | arrive (m : Message)
  | deliver
  deriving DecidableEq, Repr

/-- One receive-side step: state is the connection paired with the list of
messages handed to the application so far (in hand-off order). -/
def recvStep (s : ClientState × List Message) (e : RecvEvent) : ClientState × List Message :=
  match e with
  | RecvEvent.arrive m => (processReceivedMessage s.1 m, s.2)
  | RecvEvent.deliver =>
    let r := prepareReadMessage s.1 s.2
    (r.1, r.2)

/-- Result buffers of the sliding-window admission loop. -/
structure SendBuf where
  slideWindow : List Message
  pendingSendMessages : List Message
  pendingReSendMessages : List (Nat × Message)
  unAckedMessages : List Nat
  sent : List Message
  deriving DecidableEq, Repr

/-- Modelled from the spec: the admission loop of `slideWindowAdvance` (§4.1),
the body of the client method `processPendingSendMessages` invoked by
`handleEvents` (`server_impl.go:172`), absent from the sources.  While the
window holds fewer than `windowSize` entries and the pending-send queue is
non-empty: pop the queue's front, append it to the window, record its sequence
number as unacknowledged, register it for epoch replay and transmit it. -/
def slideAdvanceGo (wsize : Nat) (win : List Message) (resend : List (Nat × Message))
    (unacked : List Nat) : List Message → SendBuf
  | [] => { slideWindow := win, pendingSendMessages := [], pendingReSendMessages := resend,
            unAckedMessages := unacked, sent := [] }
  | m :: rest =>
    if win.length < wsize then
      let r := slideAdvanceGo wsize (win ++ [m]) ((m.seqNum, m) :: resend)
        (unacked ++ [m.seqNum]) rest
      { r with sent := m :: r.sent }
    else
      { slideWindow := win, pendingSendMessages := m :: rest, pendingReSendMessages := resend,
        unAckedMessages := unacked, sent := [] }

/-- Modelled from the spec: client method `processPendingSendMessages`
(`server_impl.go:172`), absent from the sources; it runs `slideWindowAdvance`
over the connection's buffers.  Returns the updated connection and the
messages transmitted to the peer. -/
def processPendingSendMessages (c : ClientState) : ClientState × List Message :=
  let r := slideAdvanceGo c.windowSize c.slideWindow c.pendingReSendMessages
    c.unAckedMessages c.pendingSendMessages
  ({ c with slideWindow := r.slideWindow
            pendingSendMessages := r.pendingSendMessages
            pendingReSendMessages := r.pendingReSendMessages
            unAckedMessages := r.unAckedMessages }, r.sent)

/-- Modelled from the spec: client method `processAckMessage`
(`server_impl.go:189`), absent from the sources.  Spec §4.1 `onAck(seqNum)`:
remove the sequence number from `unAckedMessages` and `pendingReSendMessages`;
if it was the front of the window, drop every leading already-acknowledged
entry and re-run the admission loop (which may transmit newly admitted
messages); an ack for a middle entry does not move the window front. -/
def processAckMessage (c : ClientState) (m : Message) : ClientState × List Message :=
  let unacked := c.unAckedMessages.erase m.seqNum
  let resend := alistErase m.seqNum c.pendingReSendMessages
  let c1 := { c with unAckedMessages := unacked, pendingReSendMessages := resend }
  match c.slideWindow with
  | [] => (c1, [])
  | w :: _ =>
    if w.seqNum = m.seqNum then
      let win := c.slideWindow.dropWhile (fun x => !(unacked.contains x.seqNum))
      processPendingSendMessages { c1 with slideWindow := win }
    else (c1, [])

/-- Modelled from the spec: client method `resendAckMessages`
(`server_impl.go:185`), absent from the sources.  Spec §4.1 `onEpochTick`:
"re-sends the most recent acknowledgment owed to the peer". -/
def resendAckMessages (c : ClientState) : List Message :=
  [NewAck c.connID c.lastAckSeqNum]

/-- Modelled from the spec: client method `processPendingReSendMessages`
(`server_impl.go:184`), absent from the sources.  Spec §4.1 `onEpochTick`:
"re-transmits every entry in `pendingResend`". -/
def processPendingReSendMessages (c : ClientState) : List Message :=
  c.pendingReSendMessages.map Prod.snd

/-- Modelled from the spec: client method `checkCloseComplete`
(`server_impl.go:193`), absent from the sources.  Spec §4.1: in `Closing`, the
window keeps draining until nothing is unacknowledged or pending, then the
connection transitions to `Closed`. -/
def checkCloseComplete (c : ClientState) : Bool :=
  c.isClosed && c.unAckedMessages.isEmpty && c.pendingSendMessages.isEmpty

/-- Modelled from the spec: client method `isConnClosed`
(`server_impl.go:168,218`), absent from the sources.  Spec §4.3 `write`: the
connection refuses work when "itself closing/lost". -/
def clientConnClosed (c : ClientState) : Bool :=
  c.isClosed || c.isLost

/-- The three event sources multiplexed by the per-connection loop
`handleEvents` (`server_impl.go:152-200`): an application write forwarded on
`writeChan`, a tick of the epoch timer, and an inbound message routed on
`receivedMessageChan`. -/
inductive CEvent
  | writeMsg (m : Message)
  | epochTick
  | received (m : Message)
  deriving DecidableEq, Repr

/-- One iteration of the `select` body of `handleEvents`
(`server_impl.go:163-198`).  Returns the updated connection, the messages
transmitted to the peer during the iteration, and whether the loop returned
(epoch limit exceeded, or graceful close completed). -/
def handleEventsStep (c : ClientState) : CEvent → ClientState × List Message × Bool
  | CEvent.writeMsg m =>
    if clientConnClosed c then (c, [], false)
    else
      match m.type with
      | MsgType.data =>
        let r := processPendingSendMessages
          { c with pendingSendMessages := c.pendingSendMessages ++ [m] }
        (r.1, r.2, false)
      | MsgType.ack =>
        ({ c with lastAckSeqNum := m.seqNum }, [NewAck m.connID m.seqNum], false)
      | MsgType.connect => (c, [], false)
  | CEvent.epochTick =>
    let cnt := c.epochFiredCount + 1
    if c.epochLimit < cnt then
      ({ c with epochFiredCount := cnt, isLost := true }, [], true)
    else
      let c' := { c with epochFiredCount := cnt }
      (c', processPendingReSendMessages c' ++ resendAckMessages c', false)
  | CEvent.received m =>
    match m.type with
    | MsgType.ack =>
      let r := processAckMessage c m
      (r.1, r.2, checkCloseComplete r.1)
    | MsgType.data =>
      let c' := processReceivedMessage c m
      (c', [], checkCloseComplete c')
    | MsgType.connect => (c, [], false)

/-- The `handleEvents` loop (`server_impl.go:152-200`) over a list of events:
before each iteration the loop exits if the connection is lost
(`server_impl.go:158-161`); an iteration whose body returned stops consuming
events.  Returns the final connection state and all messages transmitted to
the peer. -/
def runEvents (c : ClientState) : List CEvent → ClientState × List Message
  | [] => (c, [])
  | e :: es =>
    if c.isLost then (c, [])
    else
      let r := handleEventsStep c e
      if r.2.2 then (r.1, r.2.1)
      else
        let rest := runEvents r.1 es
        (rest.1, r.2.1 ++ rest.2)

/-- Coordinator state: the fields of the `server` struct (`server_impl.go:15-28`).
The socket, ticker, mutex and channels are omitted; `isClosed` (`int32` atomic)
becomes `Bool`. -/
structure ServerState where
  windowSize : Nat
  epochLimit : Nat
  clients : List (Int × ClientState)
  nextClientID : Int
  isClosed : Bool
  deriving DecidableEq, Repr

/-- The `server` struct literal of `NewServer` (`server_impl.go:45-57`):
empty connection table, `nextClientID = 0`, not closed. -/
def initialServer (windowSize epochLimit : Nat) : ServerState :=
  { windowSize := windowSize, epochLimit := epochLimit, clients := [],
    nextClientID := 0, isClosed := false }

/-- Observable effects of one coordinator step: a message pushed onto a
connection's `writeChan`, a message routed to a connection's
`receivedMessageChan`, and the spawning of a connection's event loop
(`go s.handleEvents(client)`). -/
inductive SOut
  | toClientWrite (id : Int) (m : Message)
  | toClientRecv (id : Int) (m : Message)
  | startLoop (id : Int)
  deriving DecidableEq, Repr

/-- The datagram branch of `handleConn` (`server_impl.go:85-147`): demultiplex
one decoded inbound message.
* `MsgAck`: look the connection up; if absent drop, else route to its
  `receivedMessageChan` (`server_impl.go:94-101`).
* `MsgData`: look the connection up; if absent drop, else bump
  `receivedMessageSeqNum`, reset `epochFiredCount` to `0`, push an ack for the
  received sequence number onto the connection's `writeChan` and route the
  message to its `receivedMessageChan` (`server_impl.go:102-112`).
* `MsgConnect`: ignore if the coordinator is closing; else register a fresh
  `client` under `nextClientID`, ack with the client's initial sequence number
  `0`, increment `nextClientID` and start the connection's event loop
  (`server_impl.go:113-146`). -/
def handleDatagram (s : ServerState) (m : Message) : ServerState × List SOut :=
  match m.type with
  | MsgType.ack =>
    match alistLookup m.connID s.clients with
    | none => (s, [])
    | some _ => (s, [SOut.toClientRecv m.connID m])
  | MsgType.data =>
    match alistLookup m.connID s.clients with
    | none => (s, [])
    | some c =>
      let c' := { c with receivedMessageSeqNum := c.receivedMessageSeqNum + 1,
                         epochFiredCount := 0 }
      ({ s with clients := alistUpdate m.connID c' s.clients },
       [SOut.toClientWrite m.connID (NewAck m.connID m.seqNum),
        SOut.toClientRecv m.connID m])
  | MsgType.connect =>
    if s.isClosed then (s, [])
    else
      let c := initClient s.nextClientID s.epochLimit s.windowSize
      ({ s with clients := (s.nextClientID, c) :: s.clients,
                nextClientID := s.nextClientID + 1 },
       [SOut.toClientWrite s.nextClientID (NewAck s.nextClientID c.seqNum),
        SOut.startLoop s.nextClientID])

/-- The three event sources of the coordinator loop `handleConn`
(`server_impl.go:63-150`): the hard-close signal, removal of a finished
connection, and an inbound datagram. -/
inductive SrvEv
  | closeSignal
  | closeClient (id : Int)
  | datagram (m : Message)
  deriving DecidableEq, Repr

/-- One iteration of `handleConn` (`server_impl.go:64-148`): `closeChan` sets
the closing flag, `closeClientChan` deletes the connection, a datagram is
demultiplexed by `handleDatagram`. -/
def serverStep (s : ServerState) : SrvEv → ServerState × List SOut
  | SrvEv.closeSignal => ({ s with isClosed := true }, [])
  | SrvEv.closeClient id => ({ s with clients := alistErase id s.clients }, [])
  | SrvEv.datagram m => handleDatagram s m

/-- The coordinator loop over a list of events, accumulating all effects. -/
def serverRun (s : ServerState) : List SrvEv → ServerState × List SOut
  | [] => (s, [])
  | e :: es =>
    let r := serverStep s e
    let rest := serverRun r.1 es
    (rest.1, r.2 ++ rest.2)

/-- The connection ID carried by a `startLoop` effect, if any. -/
def startLoopID : SOut → Option Int
  | SOut.startLoop id => some id
  | _ => none

/-- The connection IDs handed out by the coordinator along a run: one
`startLoop` effect is emitted per accepted connect. -/
def assignedIDs (s : ServerState) (es : List SrvEv) : List Int :=
  (serverRun s es).2.filterMap startLoopID

/-- `Write` (`server_impl.go:213-227`): error if the coordinator is closing or
the connection is unknown or itself refuses work; otherwise increment the
connection's sequence number, build the data message carrying it and push the
message onto the connection's `writeChan` (modelled as returning it). -/
def srvWrite (s : ServerState) (connID : Int) (payload : List Nat) :
    Except Unit (ServerState × Message) :=
  if s.isClosed then Except.error ()
  else
    match alistLookup connID s.clients with
    | none => Except.error ()
    | some c =>
      if clientConnClosed c then Except.error ()
      else
        let c' := { c with seqNum := c.seqNum + 1 }
        Except.ok ({ s with clients := alistUpdate connID c' s.clients },
          NewData connID (c.seqNum + 1) payload.length payload)

/-- The two alternatives of the `select` in `Read` (`server_impl.go:202-211`):
a message arriving on `readChan`, or the close signal. -/
inductive ReadEvent
  | message (m : Message)
  | closeSignal
  deriving DecidableEq, Repr

/-- `Read` (`server_impl.go:202-211`): a delivered message yields
`(m.ConnID, m.Payload, nil)`; the close signal yields `(-1, nil, nil)`. -/
def srvRead : ReadEvent → Int × Option (List Nat) × Option Unit
  | ReadEvent.message m => (m.connID, some m.payload, none)
  | ReadEvent.closeSignal => (-1, none, none)

/-- `CloseConn` (`server_impl.go:236-243`): error if the connection is unknown;
otherwise signal its event loop's `closeChan` (modelled as returning the
signalled connection ID) and succeed. -/
def srvCloseConn (s : ServerState) (connID : Int) : Except Unit Int :=
  match alistLookup connID s.clients with
  | none => Except.error ()
  | some _ => Except.ok connID

/-! ## Association-list lemmas -/

theorem alistLookup_some_mem {α β : Type} [DecidableEq α] {k : α} {v : β} :
    ∀ {l : List (α × β)}, alistLookup k l = some v → (k, v) ∈ l := by
  intro l
  induction l with
  | nil => intro h; simp [alistLookup] at h
  | cons p rest ih =>
    intro h
    obtain ⟨a, b⟩ := p
    by_cases hk : a = k
    · subst hk
      simp [alistLookup] at h
      subst h
      exact List.mem_cons_self _ _
    · simp [alistLookup, hk] at h
      exact List.mem_cons_of_mem _ (ih h)

theorem mem_alistErase {α β : Type} [DecidableEq α] {k : α} {p : α × β} :
    ∀ {l : List (α × β)}, p ∈ alistErase k l ↔ p ∈ l ∧ p.1 ≠ k := by
  intro l
  induction l with
  | nil => simp [alistErase]
  | cons q rest ih =>
    by_cases hk : q.1 = k
    · simp only [alistErase, if_pos hk]
      rw [ih]
      constructor
      · rintro ⟨hm, hne⟩
        exact ⟨List.mem_cons_of_mem _ hm, hne⟩
      · rintro ⟨hm, hne⟩
        rcases List.mem_cons.mp hm with h | h
        · exact absurd (h ▸ hk) hne
        · exact ⟨h, hne⟩
    · simp only [alistErase, if_neg hk, List.mem_cons]
      rw [ih]
      constructor
      · rintro (h | ⟨hm, hne⟩)
        · exact ⟨Or.inl h, h ▸ hk⟩
        · exact ⟨Or.inr hm, hne⟩
      · rintro ⟨h | hm, hne⟩
        · exact Or.inl h
        · exact Or.inr ⟨hm, hne⟩

/-! ## `List.range'` helper lemmas (step 1) -/

theorem range1_append : ∀ (n s m : Nat),
    List.range' s n ++ List.range' (s + n) m = List.range' s (n + m) := by
  intro n
  induction n with
  | zero => intro s m; simp [List.range']
  | succ n ih =>
    intro s m
    have h1 : List.range' s (n + 1) = s :: List.range' (s + 1) n := rfl
    have hx : n + 1 + m = (n + m) + 1 := by omega
    have h2 : List.range' s (n + 1 + m) = s :: List.range' (s + 1) (n + m) := by
      rw [hx]
      exact rfl
    rw [h1, h2, List.cons_append]
    have h3 : s + (n + 1) = (s + 1) + n := by omega
    rw [h3, ih (s + 1) m]

theorem range1_le_of_mem : ∀ (n s a : Nat), a ∈ List.range' s n → s ≤ a := by
  intro n
  induction n with
  | zero => intro s a h; simp [List.range'] at h
  | succ n ih =>
    intro s a h
    have h1 : List.range' s (n + 1) = s :: List.range' (s + 1) n := rfl
    rw [h1] at h
    rcases List.mem_cons.mp h with h | h
    · omega
    · have := ih (s + 1) a h
      omega

theorem range1_pairwise : ∀ (n s : Nat), List.Pairwise (· < ·) (List.range' s n) := by
  intro n
  induction n with
  | zero => intro s; simp [List.range']
  | succ n ih =>
    intro s
    have h1 : List.range' s (n + 1) = s :: List.range' (s + 1) n := rfl
    rw [h1]
    constructor
    · intro a ha
      have := range1_le_of_mem n (s + 1) a ha
      omega
    · exact ih (s + 1)

theorem append_eq_range1 : ∀ (l1 l2 : List Nat) (s n : Nat),
    l1 ++ l2 = List.range' s n → l1 = List.range' s l1.length := by
  intro l1
  induction l1 with
  | nil => intro l2 s n _; rfl
  | cons a t ih =>
    intro l2 s n h
    cases n with
    | zero => simp [List.range'] at h
    | succ n =>
      have h1 : List.range' s (n + 1) = s :: List.range' (s + 1) n := rfl
      rw [h1, List.cons_append] at h
      have ha : a = s := (List.cons.injEq _ _ _ _ ▸ h).1
      have ht : t ++ l2 = List.range' (s + 1) n := (List.cons.injEq _ _ _ _ ▸ h).2
      rw [List.length_cons]
      show a :: t = s :: List.range' (s + 1) t.length
      rw [ha]
      exact congrArg (List.cons s) (ih l2 (s + 1) n ht)

/-! ## The contiguous-delivery drain loop -/

theorem drainGo_spec : ∀ (fuel : Nat) (pend : List (Nat × Message)) (last : Nat)
    (queue : List Message),
    (∀ p ∈ pend, last ≤ p.1) → (∀ p ∈ pend, (p.2).seqNum = p.1) →
    last ≤ (drainGo fuel pend last queue).2.1 ∧
    (drainGo fuel pend last queue).2.2.map Message.seqNum =
      queue.map Message.seqNum ++
        List.range' last ((drainGo fuel pend last queue).2.1 - last) ∧
    (∀ p ∈ (drainGo fuel pend last queue).1, (drainGo fuel pend last queue).2.1 ≤ p.1) ∧
    (∀ p ∈ (drainGo fuel pend last queue).1, (p.2).seqNum = p.1) := by
  intro fuel
  induction fuel with
  | zero =>
    intro pend last queue hk hs
    refine ⟨Nat.le_refl _, ?_, hk, hs⟩
    simp [drainGo]
  | succ fuel ih =>
    intro pend last queue hk hs
    cases h : alistLookup last pend with
    | none =>
      have hg : drainGo (fuel + 1) pend last queue = (pend, last, queue) := by
        simp [drainGo, h]
      rw [hg]
      refine ⟨Nat.le_refl _, ?_, hk, hs⟩
      simp
    | some m =>
      have hmem : (last, m) ∈ pend := alistLookup_some_mem h
      have hmseq : m.seqNum = last := hs _ hmem
      have hg : drainGo (fuel + 1) pend last queue =
          drainGo fuel (alistErase last pend) (last + 1) (queue ++ [m]) := by
        simp [drainGo, h]
      have hk' : ∀ p ∈ alistErase last pend, last + 1 ≤ p.1 := by
        intro p hp
        have hh := mem_alistErase.mp hp
        have := hk _ hh.1
        omega
      have hs' : ∀ p ∈ alistErase last pend, (p.2).seqNum = p.1 := by
        intro p hp
        exact hs _ (mem_alistErase.mp hp).1
      obtain ⟨h1, h2, h3, h4⟩ := ih (alistErase last pend) (last + 1) (queue ++ [m]) hk' hs'
      rw [hg]
      refine ⟨by omega, ?_, h3, h4⟩
      rw [h2, List.map_append]
      have hr : List.range' last
          ((drainGo fuel (alistErase last pend) (last + 1) (queue ++ [m])).2.1 - last) =
          last :: List.range' (last + 1)
            ((drainGo fuel (alistErase last pend) (last + 1) (queue ++ [m])).2.1 - (last + 1)) := by
        have hn : (drainGo fuel (alistErase last pend) (last + 1) (queue ++ [m])).2.1 - last =
            ((drainGo fuel (alistErase last pend) (last + 1) (queue ++ [m])).2.1 - (last + 1)) + 1 := by
          omega
        rw [hn]
        rfl
      rw [hr]
      simp [hmseq]

/-! ## The receive-side invariant (claim C1) -/

/-- The delivery invariant: the sequence numbers handed to the application
followed by those still queued form exactly the contiguous range
`1, …, lastProcessedMessageSeqNum - 1`, and every buffered out-of-order message
is at or above the next expected sequence number and keyed by its own sequence
number. -/
def RecvInv (c : ClientState) (out : List Message) : Prop :=
  1 ≤ c.lastProcessedMessageSeqNum ∧
  (out ++ c.pendingReceivedMessageQueue).map Message.seqNum =
    List.range' 1 (c.lastProcessedMessageSeqNum - 1) ∧
  (∀ p ∈ c.pendingReceivedMessages, c.lastProcessedMessageSeqNum ≤ p.1) ∧
  (∀ p ∈ c.pendingReceivedMessages, (p.2).seqNum = p.1)

theorem recvStep_inv (s : ClientState × List Message) (e : RecvEvent)
    (h : RecvInv s.1 s.2) : RecvInv (recvStep s e).1 (recvStep s e).2 := by
  obtain ⟨h1, h2, h3, h4⟩ := h
  cases e with
  | deliver =>
    refine ⟨h1, ?_, h3, h4⟩
    simp only [recvStep, prepareReadMessage]
    simpa using h2
  | arrive m =>
    simp only [recvStep, processReceivedMessage]
    by_cases hlt : m.seqNum < s.1.lastProcessedMessageSeqNum
    · rw [if_pos hlt]
      exact ⟨h1, h2, h3, h4⟩
    · rw [if_neg hlt]
      have hk : ∀ p ∈ (m.seqNum, m) :: alistErase m.seqNum s.1.pendingReceivedMessages,
          s.1.lastProcessedMessageSeqNum ≤ p.1 := by
        intro p hp
        rcases List.mem_cons.mp hp with hp | hp
        · subst hp; omega
        · exact h3 _ (mem_alistErase.mp hp).1
      have hs : ∀ p ∈ (m.seqNum, m) :: alistErase m.seqNum s.1.pendingReceivedMessages,
          (p.2).seqNum = p.1 := by
        intro p hp
        rcases List.mem_cons.mp hp with hp | hp
        · subst hp; rfl
        · exact h4 _ (mem_alistErase.mp hp).1
      obtain ⟨g1, g2, g3, g4⟩ := drainGo_spec
        ((m.seqNum, m) :: alistErase m.seqNum s.1.pendingReceivedMessages).length
        ((m.seqNum, m) :: alistErase m.seqNum s.1.pendingReceivedMessages)
        s.1.lastProcessedMessageSeqNum s.1.pendingReceivedMessageQueue hk hs
      refine ⟨Nat.le_trans h1 g1, ?_, g3, g4⟩
      simp only [List.map_append] at h2 ⊢
      rw [g2]
      rw [← List.append_assoc, h2]
      have ha : (1 : Nat) + (s.1.lastProcessedMessageSeqNum - 1) =
          s.1.lastProcessedMessageSeqNum := by omega
      have hb := range1_append (s.1.lastProcessedMessageSeqNum - 1) 1
        ((drainGo ((m.seqNum, m) :: alistErase m.seqNum s.1.pendingReceivedMessages).length
          ((m.seqNum, m) :: alistErase m.seqNum s.1.pendingReceivedMessages)
          s.1.lastProcessedMessageSeqNum s.1.pendingReceivedMessageQueue).2.1 -
            s.1.lastProcessedMessageSeqNum)
      rw [ha] at hb
      rw [hb]
      congr 1
      omega

theorem foldl_recvStep_inv : ∀ (es : List RecvEvent) (s : ClientState × List Message),
    RecvInv s.1 s.2 → RecvInv (es.foldl recvStep s).1 (es.foldl recvStep s).2 := by
  intro es
  induction es with
  | nil => intro s h; exact h
  | cons e es ih =>
    intro s h
    exact ih (recvStep s e) (recvStep_inv s e h)

theorem recvInv_init (cid : Int) (el ws : Nat) : RecvInv (initClient cid el ws) [] := by
  refine ⟨Nat.le_refl 1, rfl, ?_, ?_⟩ <;> intro p hp <;> simp [initClient] at hp

/-- C1: for every connection, the payloads handed to the application through
`Read` appear in strictly increasing, contiguous sequence-number order with no
gaps and no duplicates, for every order and duplication of arrival of the
underlying `Data` messages: over any interleaving of arrivals and queue drains,
the hand-off stream's sequence numbers are exactly `1, 2, …, n` in order. -/
theorem lsp_C1_ordered_delivery (cid : Int) (el ws : Nat) (es : List RecvEvent) :
    (es.foldl recvStep (initClient cid el ws, [])).2.map Message.seqNum =
      List.range' 1 (es.foldl recvStep (initClient cid el ws, [])).2.length ∧
    List.Pairwise (· < ·)
      ((es.foldl recvStep (initClient cid el ws, [])).2.map Message.seqNum) ∧
    ((es.foldl recvStep (initClient cid el ws, [])).2.map Message.seqNum).Nodup := by
  obtain ⟨h1, h2, h3, h4⟩ := foldl_recvStep_inv es (initClient cid el ws, [])
    (recvInv_init cid el ws)
  rw [List.map_append] at h2
  have hout := append_eq_range1 _ _ _ _ h2
  rw [List.length_map] at hout
  refine ⟨hout, ?_, ?_⟩
  · rw [hout]
    exact range1_pairwise _ _
  · rw [hout]
    exact (range1_pairwise _ _).nodup

/-! ## Epoch handling (claims C2, C3) -/

theorem handleEventsStep_tick_lost (c : ClientState)
    (h : c.epochLimit < c.epochFiredCount + 1) :
    handleEventsStep c CEvent.epochTick =
      ({ c with epochFiredCount := c.epochFiredCount + 1, isLost := true }, [], true) := by
  simp [handleEventsStep, h]

theorem handleEventsStep_tick_live (c : ClientState)
    (h : c.epochFiredCount + 1 ≤ c.epochLimit) :
    handleEventsStep c CEvent.epochTick =
      ({ c with epochFiredCount := c.epochFiredCount + 1 },
       c.pendingReSendMessages.map Prod.snd ++ [NewAck c.connID c.lastAckSeqNum], false) := by
  have hn : ¬ c.epochLimit < c.epochFiredCount + 1 := by omega
  simp [handleEventsStep, hn, processPendingReSendMessages, resendAckMessages]

theorem runEvents_cons_live (c : ClientState) (e : CEvent) (ts : List CEvent)
    (h1 : c.isLost = false) :
    runEvents c (e :: ts) =
      (if (handleEventsStep c e).2.2 then
        ((handleEventsStep c e).1, (handleEventsStep c e).2.1)
       else ((runEvents (handleEventsStep c e).1 ts).1,
             (handleEventsStep c e).2.1 ++ (runEvents (handleEventsStep c e).1 ts).2)) := by
  simp [runEvents, h1]

theorem runEvents_tick_absorb : ∀ (j : Nat) (c : ClientState) (es : List CEvent),
    c.isLost = false → c.epochFiredCount + (j + 1) = c.epochLimit + 1 →
    runEvents c (List.replicate (j + 1) CEvent.epochTick ++ es) =
      runEvents c (List.replicate (j + 1) CEvent.epochTick) ∧
    (runEvents c (List.replicate (j + 1) CEvent.epochTick)).1.isLost = true := by
  intro j
  induction j with
  | zero =>
    intro c es h1 h2
    have hlt : c.epochLimit < c.epochFiredCount + 1 := by omega
    have hstep := handleEventsStep_tick_lost c hlt
    have hrep : List.replicate 1 CEvent.epochTick = [CEvent.epochTick] := rfl
    rw [hrep, List.cons_append, List.nil_append]
    rw [runEvents_cons_live c CEvent.epochTick es h1, runEvents_cons_live c CEvent.epochTick [] h1,
      hstep]
    simp
  | succ j ih =>
    intro c es h1 h2
    have hle : c.epochFiredCount + 1 ≤ c.epochLimit := by omega
    have hstep := handleEventsStep_tick_live c hle
    have hrep : List.replicate (j + 1 + 1) CEvent.epochTick =
        CEvent.epochTick :: List.replicate (j + 1) CEvent.epochTick := rfl
    obtain ⟨ih1, ih2⟩ := ih { c with epochFiredCount := c.epochFiredCount + 1 }
      es h1 (by simp; omega)
    rw [hrep, List.cons_append,
      runEvents_cons_live c CEvent.epochTick (List.replicate (j + 1) CEvent.epochTick ++ es) h1,
      runEvents_cons_live c CEvent.epochTick (List.replicate (j + 1) CEvent.epochTick) h1,
      hstep]
    simp only [ih1]
    exact ⟨trivial, ih2⟩

/-- C2: a connection whose peer stays silent for more than `epochLimit`
consecutive epoch ticks transitions to `Lost`, and `Lost` is absorbing: once
the `epochLimit + 1`-st silent tick has fired, the event loop has exited, so
any further events — more ticks, application writes, anything — change nothing
and transmit nothing. -/
theorem lsp_C2_lost_absorbing (c : ClientState) (h1 : c.isLost = false)
    (h2 : c.epochFiredCount = 0) (es : List CEvent) :
    runEvents c (List.replicate (c.epochLimit + 1) CEvent.epochTick ++ es) =
      runEvents c (List.replicate (c.epochLimit + 1) CEvent.epochTick) ∧
    (runEvents c (List.replicate (c.epochLimit + 1) CEvent.epochTick)).1.isLost = true :=
  runEvents_tick_absorb c.epochLimit c es h1 (by omega)

/-- Witness for C2: `epochLimit = 2`, three silent epochs reach `Lost`; a 4th
tick afterwards is a no-op. -/
theorem lsp_C2_witness :
    runEvents (initClient 0 2 8) (List.replicate 3 CEvent.epochTick ++ [CEvent.epochTick]) =
      runEvents (initClient 0 2 8) (List.replicate 3 CEvent.epochTick) ∧
    (runEvents (initClient 0 2 8) (List.replicate 3 CEvent.epochTick)).1.isLost = true :=
  lsp_C2_lost_absorbing (initClient 0 2 8) rfl rfl [CEvent.epochTick]

/-- C3: on an epoch tick for a connection whose silent-epoch count (after the
tick) does not exceed `epochLimit`, the loop retransmits every message
registered in `pendingReSendMessages` and re-sends the most recent
acknowledgment owed to the peer. -/
theorem lsp_C3_epoch_retransmit (c : ClientState)
    (h : c.epochFiredCount + 1 ≤ c.epochLimit) :
    handleEventsStep c CEvent.epochTick =
      ({ c with epochFiredCount := c.epochFiredCount + 1 },
       c.pendingReSendMessages.map Prod.snd ++ [NewAck c.connID c.lastAckSeqNum], false) :=
  handleEventsStep_tick_live c h

/-- Witness for C3: a connection with two registered pending-resend messages
retransmits both and re-sends its latest ack. -/
theorem lsp_C3_witness :
    handleEventsStep
      { initClient 0 3 4 with
          pendingReSendMessages := [(1, NewData 0 1 1 [5]), (2, NewData 0 2 1 [6])],
          lastAckSeqNum := 2, epochFiredCount := 1 } CEvent.epochTick =
      ({ initClient 0 3 4 with
          pendingReSendMessages := [(1, NewData 0 1 1 [5]), (2, NewData 0 2 1 [6])],
          lastAckSeqNum := 2, epochFiredCount := 2 },
       [NewData 0 1 1 [5], NewData 0 2 1 [6], NewAck 0 2], false) :=
  lsp_C3_epoch_retransmit
    { initClient 0 3 4 with
        pendingReSendMessages := [(1, NewData 0 1 1 [5]), (2, NewData 0 2 1 [6])],
        lastAckSeqNum := 2, epochFiredCount := 1 } (by decide)

/-! ## The sliding-window bound (claim C5) -/

theorem dropWhile_length_le {α : Type} (p : α → Bool) :
    ∀ (l : List α), (l.dropWhile p).length ≤ l.length := by
  intro l
  induction l with
  | nil => simp
  | cons a t ih =>
    by_cases hp : p a
    · rw [List.dropWhile_cons_of_pos hp]
      simp
      omega
    · rw [List.dropWhile_cons_of_neg (by simpa using hp)]

theorem slideAdvanceGo_window_le (wsize : Nat) :
    ∀ (queue win : List Message) (resend : List (Nat × Message)) (unacked : List Nat),
    win.length ≤ wsize →
    (slideAdvanceGo wsize win resend unacked queue).slideWindow.length ≤ wsize := by
  intro queue
  induction queue with
  | nil =>
    intro win resend unacked h
    simpa [slideAdvanceGo] using h
  | cons m rest ih =>
    intro win resend unacked h
    by_cases hw : win.length < wsize
    · simp only [slideAdvanceGo, if_pos hw]
      exact ih (win ++ [m]) _ _ (by simp; omega)
    · simpa [slideAdvanceGo, if_neg hw] using h

theorem processPendingSendMessages_window (c : ClientState)
    (h : c.slideWindow.length ≤ c.windowSize) :
    (processPendingSendMessages c).1.slideWindow.length ≤ (processPendingSendMessages c).1.windowSize ∧
    (processPendingSendMessages c).1.windowSize = c.windowSize := by
  refine ⟨?_, rfl⟩
  exact slideAdvanceGo_window_le c.windowSize c.pendingSendMessages c.slideWindow
    c.pendingReSendMessages c.unAckedMessages h

theorem processAckMessage_window (c : ClientState) (m : Message)
    (h : c.slideWindow.length ≤ c.windowSize) :
    (processAckMessage c m).1.slideWindow.length ≤ (processAckMessage c m).1.windowSize ∧
    (processAckMessage c m).1.windowSize = c.windowSize := by
  unfold processAckMessage
  split
  · exact ⟨h, rfl⟩
  · rename_i w tail heq
    by_cases hseq : w.seqNum = m.seqNum
    · rw [if_pos hseq]
      apply processPendingSendMessages_window
      exact Nat.le_trans (dropWhile_length_le _ _) h
    · rw [if_neg hseq]
      exact ⟨h, rfl⟩

theorem processReceivedMessage_window (c : ClientState) (m : Message) :
    (processReceivedMessage c m).slideWindow = c.slideWindow ∧
    (processReceivedMessage c m).windowSize = c.windowSize := by
  unfold processReceivedMessage
  by_cases hlt : m.seqNum < c.lastProcessedMessageSeqNum
  · rw [if_pos hlt]; exact ⟨rfl, rfl⟩
  · rw [if_neg hlt]; exact ⟨rfl, rfl⟩

theorem handleEventsStep_window (c : ClientState) (e : CEvent)
    (h : c.slideWindow.length ≤ c.windowSize) :
    (handleEventsStep c e).1.slideWindow.length ≤ (handleEventsStep c e).1.windowSize ∧
    (handleEventsStep c e).1.windowSize = c.windowSize := by
  cases e with
  | epochTick =>
    by_cases hlt : c.epochLimit < c.epochFiredCount + 1
    · rw [handleEventsStep_tick_lost c hlt]
      exact ⟨h, rfl⟩
    · rw [handleEventsStep_tick_live c (by omega)]
      exact ⟨h, rfl⟩
  | writeMsg m =>
    simp only [handleEventsStep]
    by_cases hcl : clientConnClosed c = true
    · rw [if_pos hcl]
      exact ⟨h, rfl⟩
    · rw [if_neg hcl]
      split
      · exact processPendingSendMessages_window
          { c with pendingSendMessages := c.pendingSendMessages ++ [m] } h
      · exact ⟨h, rfl⟩
      · exact ⟨h, rfl⟩
  | received m =>
    simp only [handleEventsStep]
    split
    · exact processAckMessage_window c m h
    · obtain ⟨h1, h2⟩ := processReceivedMessage_window c m
      refine ⟨?_, ?_⟩
      · show (processReceivedMessage c m).slideWindow.length ≤
          (processReceivedMessage c m).windowSize
        rw [h1, h2]
        exact h
      · show (processReceivedMessage c m).windowSize = c.windowSize
        exact h2
    · exact ⟨h, rfl⟩

theorem runEvents_window : ∀ (es : List CEvent) (c : ClientState),
    c.slideWindow.length ≤ c.windowSize →
    (runEvents c es).1.slideWindow.length ≤ (runEvents c es).1.windowSize ∧
    (runEvents c es).1.windowSize = c.windowSize := by
  intro es
  induction es with
  | nil => intro c h; exact ⟨h, rfl⟩
  | cons e ts ih =>
    intro c h
    by_cases hl : c.isLost = true
    · have hrun : runEvents c (e :: ts) = (c, []) := by simp [runEvents, hl]
      rw [hrun]
      exact ⟨h, rfl⟩
    · have hl' : c.isLost = false := by simpa using hl
      obtain ⟨s1, s2⟩ := handleEventsStep_window c e h
      rw [runEvents_cons_live c e ts hl']
      by_cases ht : (handleEventsStep c e).2.2 = true
      · rw [if_pos ht]
        exact ⟨s1, s2⟩
      · rw [if_neg ht]
        obtain ⟨r1, r2⟩ := ih (handleEventsStep c e).1 s1
        exact ⟨r1, r2.trans s2⟩

/-- C5: for every connection and every run of its event loop from creation, the
number of entries in the connection's sliding window never exceeds
`windowSize`; since every reachable instant is the end state of some event
prefix, the bound holds at every observable instant. -/
theorem lsp_C5_window_bound (cid : Int) (el ws : Nat) (es : List CEvent) :
    (runEvents (initClient cid el ws) es).1.slideWindow.length ≤ ws := by
  obtain ⟨h1, h2⟩ := runEvents_window es (initClient cid el ws) (by simp [initClient])
  rw [h2] at h1
  exact h1

/-! ## Further association-list lemmas -/

theorem alistLookup_none {α β : Type} [DecidableEq α] (k : α) :
    ∀ (l : List (α × β)), (∀ p ∈ l, p.1 ≠ k) → alistLookup k l = none := by
  intro l
  induction l with
  | nil => intro _; rfl
  | cons p rest ih =>
    intro h
    have hp : p.1 ≠ k := h p (List.mem_cons_self _ _)
    simp only [alistLookup, if_neg hp]
    exact ih fun q hq => h q (List.mem_cons_of_mem _ hq)

theorem alistLookup_update_self {α β : Type} [DecidableEq α] (k : α) (v : β) :
    ∀ (l : List (α × β)) (c : β), alistLookup k l = some c →
    alistLookup k (alistUpdate k v l) = some v := by
  intro l
  induction l with
  | nil => intro c h; simp [alistLookup] at h
  | cons p rest ih =>
    intro c h
    by_cases hk : p.1 = k
    · simp [alistUpdate, hk, alistLookup]
    · simp only [alistLookup, if_neg hk] at h
      simp only [alistUpdate, if_neg hk, alistLookup, if_neg hk]
      exact ih c h

theorem mem_alistUpdate_key {α β : Type} [DecidableEq α] {k : α} {v : β} {q : α × β} :
    ∀ {l : List (α × β)}, q ∈ alistUpdate k v l → ∃ p ∈ l, q.1 = p.1 := by
  intro l
  induction l with
  | nil => intro h; simp [alistUpdate] at h
  | cons p rest ih =>
    intro h
    by_cases hk : p.1 = k
    · rw [alistUpdate, if_pos hk] at h
      rcases List.mem_cons.mp h with h | h
      · exact ⟨p, List.mem_cons_self _ _, by rw [h, hk]⟩
      · obtain ⟨p', hp', he⟩ := ih h
        exact ⟨p', List.mem_cons_of_mem _ hp', he⟩
    · rw [alistUpdate, if_neg hk] at h
      rcases List.mem_cons.mp h with h | h
      · exact ⟨p, List.mem_cons_self _ _, by rw [h]⟩
      · obtain ⟨p', hp', he⟩ := ih h
        exact ⟨p', List.mem_cons_of_mem _ hp', he⟩

/-! ## Coordinator invariants -/

/-- Connection IDs in the table are non-negative and below the allocation
counter. -/
def ServerInv (s : ServerState) : Prop :=
  0 ≤ s.nextClientID ∧ ∀ p ∈ s.clients, 0 ≤ p.1 ∧ p.1 < s.nextClientID

theorem handleDatagram_inv (s : ServerState) (m : Message) (h : ServerInv s) :
    ServerInv (handleDatagram s m).1 := by
  obtain ⟨h1, h2⟩ := h
  unfold handleDatagram
  split
  · split
    · exact ⟨h1, h2⟩
    · exact ⟨h1, h2⟩
  · split
    · exact ⟨h1, h2⟩
    · refine ⟨h1, ?_⟩
      intro p hp
      obtain ⟨p', hp', he⟩ := mem_alistUpdate_key hp
      rw [he]
      exact h2 p' hp'
  · split
    · exact ⟨h1, h2⟩
    · refine ⟨?_, ?_⟩
      · show (0 : Int) ≤ s.nextClientID + 1
        omega
      · intro p hp
        rcases List.mem_cons.mp hp with hp | hp
        · rw [hp]
          constructor
          · exact h1
          · show s.nextClientID < s.nextClientID + 1
            omega
        · have hm := h2 p hp
          constructor
          · exact hm.1
          · have hlt : p.1 < s.nextClientID := hm.2
            show p.1 < s.nextClientID + 1
            omega

theorem serverStep_inv (s : ServerState) (e : SrvEv) (h : ServerInv s) :
    ServerInv (serverStep s e).1 := by
  obtain ⟨h1, h2⟩ := h
  cases e with
  | closeSignal => exact ⟨h1, h2⟩
  | closeClient id =>
    refine ⟨h1, ?_⟩
    intro p hp
    exact h2 p (mem_alistErase.mp hp).1
  | datagram m => exact handleDatagram_inv s m ⟨h1, h2⟩

theorem serverRun_inv : ∀ (es : List SrvEv) (s : ServerState),
    ServerInv s → ServerInv (serverRun s es).1 := by
  intro es
  induction es with
  | nil => intro s h; exact h
  | cons e ts ih =>
    intro s h
    exact ih (serverStep s e).1 (serverStep_inv s e h)

theorem handleDatagram_next_mono (s : ServerState) (m : Message) :
    s.nextClientID ≤ (handleDatagram s m).1.nextClientID := by
  unfold handleDatagram
  split
  · split
    · exact Int.le_refl _
    · exact Int.le_refl _
  · split
    · exact Int.le_refl _
    · exact Int.le_refl _
  · split
    · exact Int.le_refl _
    · show s.nextClientID ≤ s.nextClientID + 1
      omega

theorem serverStep_next_mono (s : ServerState) (e : SrvEv) :
    s.nextClientID ≤ (serverStep s e).1.nextClientID := by
  cases e with
  | closeSignal => exact Int.le_refl _
  | closeClient id => exact Int.le_refl _
  | datagram m => exact handleDatagram_next_mono s m

/-! ## Freshness of allocated connection IDs (claim C7) -/

theorem assignedIDs_cons (s : ServerState) (e : SrvEv) (ts : List SrvEv) :
    assignedIDs s (e :: ts) =
      (serverStep s e).2.filterMap startLoopID ++ assignedIDs (serverStep s e).1 ts := by
  simp [assignedIDs, serverRun, List.filterMap_append]

theorem serverStep_assigned (s : ServerState) (e : SrvEv) :
    (serverStep s e).2.filterMap startLoopID = [] ∨
    ((serverStep s e).2.filterMap startLoopID = [s.nextClientID] ∧
      (serverStep s e).1.nextClientID = s.nextClientID + 1) := by
  cases e with
  | closeSignal => exact Or.inl rfl
  | closeClient id => exact Or.inl rfl
  | datagram m =>
    show (handleDatagram s m).2.filterMap startLoopID = [] ∨
      ((handleDatagram s m).2.filterMap startLoopID = [s.nextClientID] ∧
        (handleDatagram s m).1.nextClientID = s.nextClientID + 1)
    unfold handleDatagram
    split
    · split
      · exact Or.inl rfl
      · exact Or.inl rfl
    · split
      · exact Or.inl rfl
      · exact Or.inl rfl
    · split
      · exact Or.inl rfl
      · exact Or.inr ⟨rfl, rfl⟩

theorem assignedIDs_lb : ∀ (es : List SrvEv) (s : ServerState) (a : Int),
    a ∈ assignedIDs s es → s.nextClientID ≤ a := by
  intro es
  induction es with
  | nil => intro s a ha; simp [assignedIDs, serverRun] at ha
  | cons e ts ih =>
    intro s a ha
    rw [assignedIDs_cons] at ha
    rcases List.mem_append.mp ha with h | h
    · rcases serverStep_assigned s e with hh | ⟨hh, _⟩
      · rw [hh] at h
        simp at h
      · rw [hh] at h
        have : a = s.nextClientID := by simpa using h
        omega
    · have hle := ih (serverStep s e).1 a h
      have hm := serverStep_next_mono s e
      omega

theorem assignedIDs_pairwise : ∀ (es : List SrvEv) (s : ServerState),
    List.Pairwise (· < ·) (assignedIDs s es) := by
  intro es
  induction es with
  | nil => intro s; simp [assignedIDs, serverRun]
  | cons e ts ih =>
    intro s
    rw [assignedIDs_cons]
    rcases serverStep_assigned s e with h | ⟨h1, h2⟩
    · rw [h, List.nil_append]
      exact ih _
    · rw [h1, List.singleton_append]
      constructor
      · intro b hb
        have hlb := assignedIDs_lb ts (serverStep s e).1 b hb
        omega
      · exact ih _

/-- C7: a `Connect` received while the coordinator is not closing registers a
fresh connection (its ID drawn from the monotone counter and absent from the
table), replies with an ack carrying sequence number `0`, starts the
connection's event loop, and bumps the counter; a `Connect` received while
closing is ignored; and along any run the IDs handed out are strictly
increasing, hence never reused. -/
theorem lsp_C7_connect (s : ServerState) (m : Message) (hm : m.type = MsgType.connect)
    (hK : ∀ p ∈ s.clients, p.1 < s.nextClientID) :
    (s.isClosed = false →
      handleDatagram s m =
        ({ s with
            clients := (s.nextClientID,
              initClient s.nextClientID s.epochLimit s.windowSize) :: s.clients,
            nextClientID := s.nextClientID + 1 },
         [SOut.toClientWrite s.nextClientID (NewAck s.nextClientID 0),
          SOut.startLoop s.nextClientID])) ∧
    (s.isClosed = true → handleDatagram s m = (s, [])) ∧
    alistLookup s.nextClientID s.clients = none ∧
    (∀ es : List SrvEv, List.Pairwise (· < ·) (assignedIDs s es)) := by
  refine ⟨?_, ?_, ?_, fun es => assignedIDs_pairwise es s⟩
  · intro hc
    simp [handleDatagram, hm, hc, initClient]
  · intro hc
    simp [handleDatagram, hm, hc]
  · apply alistLookup_none
    intro p hp
    have := hK p hp
    omega

/-- A connect-handshake datagram (decoded form; only the kind matters). -/
def connectMsgW : Message :=
  { type := MsgType.connect, connID := 0, seqNum := 0, size := 0, payload := [] }

/-- Witness for C7: the freshly started server accepts a connect, registers
connection `0`, acks with sequence number `0` and starts its loop. -/
theorem lsp_C7_witness :
    handleDatagram (initialServer 1 2) connectMsgW =
      ({ initialServer 1 2 with
          clients := [(0, initClient 0 2 1)], nextClientID := 1 },
       [SOut.toClientWrite 0 (NewAck 0 0), SOut.startLoop 0]) :=
  (lsp_C7_connect (initialServer 1 2) connectMsgW rfl
    (by intro p hp; simp [initialServer] at hp)).1 rfl

/-! ## Epoch-counter reset on inbound traffic (claim C4) -/

/-- A registered connection that has already been silent for one epoch. -/
def c4Client : ClientState := { initClient 0 2 1 with epochFiredCount := 1 }

/-- A server with the single connection `0` in the state `c4Client`. -/
def c4Server : ServerState :=
  { windowSize := 1, epochLimit := 2, clients := [(0, c4Client)],
    nextClientID := 1, isClosed := false }

/-- Counterexample to C4 as stated: receipt of an `Ack` from the peer of
connection `0` leaves `epochFiredCount` at `1`; the claimed reset to `0` does
not happen (`handleConn` resets the counter only in its `MsgData` branch,
`server_impl.go:110`). -/
theorem lsp_C4_counterexample :
    (alistLookup 0 (handleDatagram c4Server (NewAck 0 1)).1.clients).map
        ClientState.epochFiredCount = some 1 ∧
    ¬ (alistLookup 0 (handleDatagram c4Server (NewAck 0 1)).1.clients).map
        ClientState.epochFiredCount = some 0 := by
  decide

/-- C4 amended: only inbound `Data` messages reset the connection's
silent-epoch counter `epochFiredCount` to `0`; an inbound `Ack` leaves the
coordinator state — the counter included — entirely unchanged. -/
theorem lsp_C4_reset_on_data_only (s : ServerState) (md ma : Message) (c : ClientState)
    (hd : md.type = MsgType.data) (ha : ma.type = MsgType.ack)
    (hm : alistLookup md.connID s.clients = some c) :
    (alistLookup md.connID (handleDatagram s md).1.clients).map ClientState.epochFiredCount =
      some 0 ∧
    (handleDatagram s ma).1 = s := by
  constructor
  · simp only [handleDatagram, hd, hm]
    rw [alistLookup_update_self md.connID _ s.clients c hm]
    rfl
  · simp only [handleDatagram, ha]
    cases hl : alistLookup ma.connID s.clients with
    | none => rfl
    | some c' => rfl

/-- Witness for the amended C4: a `Data` datagram resets connection `0`'s
counter to `0`, while an `Ack` leaves the server state unchanged. -/
theorem lsp_C4_witness :
    (alistLookup 0 (handleDatagram c4Server (NewData 0 1 1 [7])).1.clients).map
        ClientState.epochFiredCount = some 0 ∧
    (handleDatagram c4Server (NewAck 0 1)).1 = c4Server :=
  lsp_C4_reset_on_data_only c4Server (NewData 0 1 1 [7]) (NewAck 0 1) c4Client
    rfl rfl (by decide)

/-! ## `Write` error conditions (claim C6) -/

/-- C6: `Write(connID, payload)` returns the connection-closed error exactly
when the coordinator is closing, or the target connection is absent from the
table, or the target connection itself is closing or lost; otherwise it
increments the connection's sequence number, builds the data message carrying
the new number and hands it to that connection's send path. -/
theorem lsp_C6_write (s : ServerState) (id : Int) (p : List Nat) :
    ((srvWrite s id p = Except.error ()) ↔
      (s.isClosed = true ∨ alistLookup id s.clients = none ∨
        ∃ c, alistLookup id s.clients = some c ∧ (c.isClosed = true ∨ c.isLost = true))) ∧
    (∀ c, s.isClosed = false → alistLookup id s.clients = some c →
      c.isClosed = false → c.isLost = false →
      srvWrite s id p =
        Except.ok
          ({ s with clients := alistUpdate id { c with seqNum := c.seqNum + 1 } s.clients },
           NewData id (c.seqNum + 1) p.length p)) := by
  constructor
  · by_cases hs : s.isClosed = true
    · simp [srvWrite, hs]
    · have hs' : s.isClosed = false := by simpa using hs
      cases hl : alistLookup id s.clients with
      | none => simp [srvWrite, hs', hl]
      | some c =>
        by_cases hcc : clientConnClosed c = true
        · have hdis : c.isClosed = true ∨ c.isLost = true := by
            simpa [clientConnClosed, Bool.or_eq_true] using hcc
          have hw : srvWrite s id p = Except.error () := by
            simp [srvWrite, hs', hl, hcc]
          rw [hw]
          constructor
          · intro _
            exact Or.inr (Or.inr ⟨c, rfl, hdis⟩)
          · intro _
            rfl
        · have hcc' : clientConnClosed c = false := by simpa using hcc
          have hc1 : c.isClosed = false := by
            rcases Bool.or_eq_false_iff.mp (by simpa [clientConnClosed] using hcc') with ⟨x, _⟩
            exact x
          have hc2 : c.isLost = false := by
            rcases Bool.or_eq_false_iff.mp (by simpa [clientConnClosed] using hcc') with ⟨_, x⟩
            exact x
          have hw : srvWrite s id p ≠ Except.error () := by
            simp [srvWrite, hs', hl, hcc']
          constructor
          · intro h
            exact absurd h hw
          · rintro (h | h | ⟨c', hc', hdis⟩)
            · simp [hs'] at h
            · exact Option.noConfusion h
            · have hce : c = c' := by injection hc'
              subst hce
              simp [hc1, hc2] at hdis
  · intro c hs hl hc1 hc2
    have hcc : clientConnClosed c = false := by simp [clientConnClosed, hc1, hc2]
    simp [srvWrite, hs, hl, hcc]

/-- A server with one live connection `0`, for the `Write` witness. -/
def c6Server : ServerState :=
  { windowSize := 2, epochLimit := 2, clients := [(0, initClient 0 2 2)],
    nextClientID := 1, isClosed := false }

/-- Witness for C6: a write to the live connection `0` succeeds, assigning
sequence number `1`. -/
theorem lsp_C6_witness :
    srvWrite c6Server 0 [7] =
      Except.ok
        ({ c6Server with
            clients := alistUpdate 0 { initClient 0 2 2 with seqNum := 1 } c6Server.clients },
         NewData 0 1 1 [7]) :=
  (lsp_C6_write c6Server 0 [7]).2 (initClient 0 2 2) rfl (by decide) rfl rfl

/-! ## Unknown-connection datagrams are dropped (claim C8) -/

/-- C8: an inbound `Data` or `Ack` datagram whose connection ID is not in the
coordinator's table is silently dropped: the coordinator state is unchanged
and no effect is produced. -/
theorem lsp_C8_unknown_dropped (s : ServerState) (m : Message)
    (hty : m.type = MsgType.data ∨ m.type = MsgType.ack)
    (h : alistLookup m.connID s.clients = none) :
    handleDatagram s m = (s, []) := by
  rcases hty with hty | hty <;> simp [handleDatagram, hty, h]

/-- Witness for C8: a data datagram for the unknown connection `5` is dropped
by a fresh server. -/
theorem lsp_C8_witness :
    handleDatagram (initialServer 1 1) (NewData 5 1 1 [9]) = (initialServer 1 1, []) :=
  lsp_C8_unknown_dropped (initialServer 1 1) (NewData 5 1 1 [9]) (Or.inl rfl) rfl

/-! ## `CloseConn` (claim C9) -/

/-- C9: `CloseConn(connID)` returns the connection-closed error exactly when
the connection is unknown; otherwise it signals that connection's event loop
to begin its graceful close (the signal on its `closeChan`, modelled as the
returned connection ID) and succeeds. -/
theorem lsp_C9_closeConn (s : ServerState) (id : Int) :
    ((srvCloseConn s id = Except.error ()) ↔ alistLookup id s.clients = none) ∧
    (∀ c, alistLookup id s.clients = some c → srvCloseConn s id = Except.ok id) := by
  constructor
  · cases hl : alistLookup id s.clients with
    | none => simp [srvCloseConn, hl]
    | some c => simp [srvCloseConn, hl]
  · intro c hl
    simp [srvCloseConn, hl]

/-- A server with one registered connection `0`, for the `CloseConn` witness. -/
def c9Server : ServerState :=
  { windowSize := 1, epochLimit := 1, clients := [(0, initClient 0 1 1)],
    nextClientID := 1, isClosed := false }

/-- Witness for C9: closing the registered connection `0` succeeds and signals
that connection. -/
theorem lsp_C9_witness : srvCloseConn c9Server 0 = Except.ok 0 :=
  (lsp_C9_closeConn c9Server 0).2 (initClient 0 1 1) (by decide)

/-! ## The `Read` shutdown sentinel (claim C10) -/

/-- C10: on coordinator shutdown a blocked `Read` returns `(-1, nil, nil)` —
no error — and, because connection IDs are allocated from `0` upwards, the
sentinel `-1` can never collide with the ID of a registered (hence of any
delivering) connection. -/
theorem lsp_C10_read_sentinel (ws el : Nat) (es : List SrvEv) (q : Int × ClientState)
    (hq : q ∈ (serverRun (initialServer ws el) es).1.clients) :
    srvRead ReadEvent.closeSignal = (-1, none, none) ∧ 0 ≤ q.1 ∧ q.1 ≠ -1 := by
  have hinv := serverRun_inv es (initialServer ws el)
    ⟨le_refl 0, by intro p hp; simp [initialServer] at hp⟩
  obtain ⟨h1, h2⟩ := hinv
  have hk := h2 q hq
  refine ⟨rfl, hk.1, ?_⟩
  have := hk.1
  omega

/-- Witness for C10: after one accepted connect, the registered connection has
ID `0`, distinct from the sentinel `-1`, and the close-signal read yields
`(-1, nil, nil)`. -/
theorem lsp_C10_witness :
    srvRead ReadEvent.closeSignal = (-1, none, none) ∧
    0 ≤ ((0 : Int), initClient 0 2 1).1 ∧ ((0 : Int), initClient 0 2 1).1 ≠ -1 :=
  lsp_C10_read_sentinel 1 2 [SrvEv.datagram connectMsgW] (0, initClient 0 2 1) (by decide)
